import Mathlib

/-!
# Verification of the Daily-PC-Component-prices crawler and ingestion engine

A shallow embedding of the price-tracking backend:

* `parse_price` — `PlaywrightBaseScraper.parse_price`
  (`backend/scrapers/playwright_base.py`, lines 175-191);
* `scrape_all_pages_loop` / `scrape_all_pages` — the pagination driver
  `PlaywrightBaseScraper.scrape_all_pages` (same file, lines 206-257);
* `calculate_price_change`, `save_search_result`,
  `scrape_search_config_async` — the ingestion/upsert engine and crawl task
  (`backend/tasks/search_task.py`);
* `scrape_single_url`, `scrape_all_products` — the single-URL scraper task
  (`backend/tasks/scraping_task.py`);
* the persisted entities of `backend/models/`.

Python strings are `List Char`, `datetime`/`date` values are abstract `Nat`
timestamps / day numbers (only equality and order are ever used), Python
floats are `ℚ` (every price literal in the claims is an exact decimal, so
rational arithmetic models the intended real-number semantics), and the
relational tables are association lists inside an explicit `DB` state.
Row ids (`uuid4` in the source) are drawn from a `next_id` counter.
-/

namespace PCPC

/-! ## Python string primitives used by `parse_price` -/

/-- Whitespace characters removed by Python `str.strip()`. -/
def pyIsSpace (c : Char) : Bool :=
  c = ' ' || c = '\t' || c = '\n' || c = '\r' || c = '\x0b' || c = '\x0c'

/-- Python `str.strip()`: drop whitespace from both ends. -/
def pyStrip (s : List Char) : List Char :=
  ((s.dropWhile pyIsSpace).reverse.dropWhile pyIsSpace).reverse

/-- `price_text.replace('â‚±', '')`: remove every occurrence of the
three-character sequence `'â', '‚', '±'` — byte for byte what the source
file holds at `playwright_base.py` line 181, a mojibake rendering of the
peso sign — scanning left to right, non-overlapping (Python `str.replace`
semantics). -/
def stripPeso : List Char → List Char
  | 'â' :: '‚' :: '±' :: rest => stripPeso rest
  | c :: rest => c :: stripPeso rest
  | [] => []

/-- `cleaned.replace('PHP', '')`, same semantics. -/
def stripPHP : List Char → List Char
  | 'P' :: 'H' :: 'P' :: rest => stripPHP rest
  | c :: rest => c :: stripPHP rest
  | [] => []

/-- `cleaned.replace(',', '')`, same semantics. -/
def stripComma : List Char → List Char
  | ',' :: rest => stripComma rest
  | c :: rest => c :: stripComma rest
  | [] => []

/-- Decimal digits to a natural number, most significant first. -/
def digitsToNat (l : List Char) : Nat :=
  l.foldl (fun a c => 10 * a + (c.toNat - 48)) 0

/-- `10 ^ n` as a rational, by structural recursion. -/
def pow10 : Nat → ℚ
  | 0 => 1
  | n + 1 => 10 * pow10 n

/-- Scale a rational by `10 ^ e` for a signed exponent `e`. -/
def mulPow10 (q : ℚ) : Int → ℚ
  | Int.ofNat n => q * pow10 n
  | Int.negSucc n => q / pow10 (n + 1)

/-- Split a list at the first character satisfying `p`; the second component
is `none` when no such character occurs. -/
def splitAtFirst (p : Char → Bool) : List Char → List Char × Option (List Char)
  | [] => ([], none)
  | c :: r =>
    if p c then ([], some r)
    else
      let q := splitAtFirst p r
      (c :: q.1, q.2)

/-- Model of Python `float(str)` restricted to finite decimal literals:
optional surrounding whitespace, optional sign, a digit string with at most
one decimal point (at least one digit overall), and an optional `e`/`E`
exponent.  The source never feeds `inf`/`nan`/underscore forms to `float`,
so those accepting branches are not modelled; every other input yields
`none`, standing for the `ValueError` that the callers catch.
`signOf` handles the optional leading sign (result: sign, remainder). -/
def signOf (s : List Char) : ℚ × List Char :=
  if s.take 1 = ['-'] then (-1, s.drop 1)
  else if s.take 1 = ['+'] then (1, s.drop 1)
  else (1, s)

/-- Sign handling of the exponent digits, as `Int`. -/
def intSignOf (s : List Char) : Int × List Char :=
  if s.take 1 = ['-'] then (-1, s.drop 1)
  else if s.take 1 = ['+'] then (1, s.drop 1)
  else (1, s)

def pyFloat (s0 : List Char) : Option ℚ :=
  let sg := signOf (pyStrip s0)
  let me := splitAtFirst (fun c => c = 'e' || c = 'E') sg.2
  let expOpt : Option Int :=
    match me.2 with
    | none => some 0
    | some e =>
      let es := intSignOf e
      if es.2 ≠ [] ∧ es.2.all Char.isDigit then some (es.1 * digitsToNat es.2)
      else none
  match expOpt with
  | none => none
  | some ex =>
    let ip := (splitAtFirst (fun c => c = '.') me.1).1
    let fpo := (splitAtFirst (fun c => c = '.') me.1).2
    let fp := fpo.getD []
    if (ip ≠ [] ∨ fp ≠ []) ∧ ip.all Char.isDigit ∧ fp.all Char.isDigit then
      some (mulPow10
        (sg.1 * ((digitsToNat ip : ℚ) + (digitsToNat fp : ℚ) / pow10 fp.length)) ex)
    else
      none

/-- `PlaywrightBaseScraper.parse_price` (`playwright_base.py`, lines 175-191).

```python
if not price_text: return None
cleaned = price_text.replace('â‚±', '').replace('PHP', '').replace(',', '').strip()
if '-' in cleaned:
    cleaned = cleaned.split('-')[0].strip()
try: return float(cleaned)
except ValueError: return None
```

Note that the first replaced literal is, byte for byte in the source file,
the three-character sequence `'â', '‚', '±'` (a mojibake rendering of the
peso sign), and the range split is on the ASCII hyphen only. -/
def parse_price (price_text : List Char) : Option ℚ :=
  if price_text.isEmpty then none
  else
    let cleaned := pyStrip (stripComma (stripPHP (stripPeso price_text)))
    let cleaned2 :=
      if cleaned.contains '-' then pyStrip (cleaned.takeWhile (fun c => c ≠ '-'))
      else cleaned
    pyFloat cleaned2

/-! ## Page extraction results and the pagination driver -/

/-- The `SearchResult` dataclass of `playwright_base.py` (lines 21-37):
one product extracted from a search-results page. -/
structure SearchResult where
  title : String
  price : ℚ
  currency : String := "PHP"
  original_price : Option ℚ := none
  discount_percent : Option Int := none
  product_url : String := ""
  image_url : Option String := none
  rating : Option ℚ := none
  reviews_count : Option Nat := none
  sold_count : Option String := none
  location : Option String := none
  store_name : Option String := none
  is_official : Bool := false
  is_preferred : Bool := false
deriving DecidableEq, Repr

/-- The `SearchPageResult` dataclass of `playwright_base.py` (lines 40-47). -/
structure SearchPageResult where
  page_number : Nat
  products : List SearchResult := []
  total_pages : Option Nat := none
  has_next_page : Bool := false
  error : Option String := none
deriving DecidableEq, Repr

/-- Observable state of one `scrape_all_pages` run.  `all_results` is the
accumulated item list, `pages_scraped` is the value the progress callback of
`scrape_search_config_async` (search_task.py, lines 186-188) has last
written (`0` before any page completes), and `extracted_pages` instruments
the run with the pages passed to `search_products`, in call order. -/
structure CrawlState where
  all_results : List SearchResult := []
  pages_scraped : Nat := 0
  extracted_pages : List Nat := []
deriving DecidableEq, Repr

/-- The `while True` body of `PlaywrightBaseScraper.scrape_all_pages`
(`playwright_base.py`, lines 225-257), with the page extractor abstracted
as `oracle : Nat → SearchPageResult` (pure: one fixed result per page
number for the run) and an explicit `fuel` bound standing for the
unbounded loop; every theorem below holds for every fuel, or names the
fuel it needs. -/
def scrape_all_pages_loop (oracle : Nat → SearchPageResult) (max_pages : Nat) :
    Nat → Nat → CrawlState → CrawlState
  | 0, _, st => st
  | fuel + 1, current_page, st =>
    let r := oracle current_page
    let st1 := { st with extracted_pages := st.extracted_pages ++ [current_page] }
    match r.error with
    | some _ => st1
    | none =>
      let st2 := { st1 with
        all_results := st1.all_results ++ r.products
        pages_scraped := current_page }
      if ¬ r.has_next_page then st2
      else if max_pages > 0 ∧ current_page ≥ max_pages then st2
      else scrape_all_pages_loop oracle max_pages fuel (current_page + 1) st2

/-- `PlaywrightBaseScraper.scrape_all_pages` started on a fresh run state. -/
def scrape_all_pages (oracle : Nat → SearchPageResult) (max_pages start_page fuel : Nat) :
    CrawlState :=
  scrape_all_pages_loop oracle max_pages fuel start_page {}

/-! ## The persisted data model (`backend/models/`) -/

/-- `backend/models/store.py` (the fields the tasks read). -/
structure Store where
  id : Nat
  name : String
  url : String
deriving DecidableEq, Repr

/-- `backend/models/product.py`: the tracked product row.  Timestamps whose
SQLModel default is `datetime.utcnow` are passed explicitly at construction
time by the embedded tasks. -/
structure Product where
  id : Nat
  name : String
  current_price : ℚ
  currency : String := "USD"
  image : Option String := none
  category : String
  brand : Option String := none
  url : String
  store_id : Nat
  price_change : ℚ := 0
  last_scraped : Option Nat := none
  scrape_date : Option Nat := none
  created_at : Nat
  updated_at : Nat
  is_active : Bool := true
deriving DecidableEq, Repr

/-- `backend/models/price_history.py`: one price observation.  The table has
no uniqueness constraint beyond the surrogate `id` primary key. -/
structure PriceHistory where
  id : Nat
  product_id : Nat
  price : ℚ
  currency : String := "USD"
  recorded_at : Nat
  recorded_date : Nat
  was_available : Bool := true
  scrape_source : Option String := none
deriving DecidableEq, Repr

/-- `backend/models/scrape_url.py`: a Single-URL Source. -/
structure ScrapeURL where
  id : Nat
  url : String
  store_id : Nat
  category : String
  brand : Option String := none
  name_selector : Option String := none
  price_selector : Option String := none
  image_selector : Option String := none
  availability_selector : Option String := none
  is_active : Bool := true
  last_scraped : Option Nat := none
  last_error : Option String := none
  error_count : Nat := 0
deriving DecidableEq, Repr

/-- `backend/models/search_config.py`: a Crawl Configuration. -/
structure SearchConfig where
  id : Nat
  store_id : Nat
  category : String
  search_term : String
  max_pages : Nat := 10
  products_per_page : Nat := 40
  last_page_scraped : Nat := 0
  total_pages_found : Option Nat := none
  total_products_found : Nat := 0
  is_active : Bool := true
  status : String := "pending"
  last_error : Option String := none
  last_scraped_at : Option Nat := none
deriving DecidableEq, Repr

/-- The relational store the tasks read and write, with a `next_id` counter
standing for `uuid4` row-id generation. -/
structure DB where
  products : List Product := []
  history : List PriceHistory := []
  scrape_urls : List ScrapeURL := []
  configs : List SearchConfig := []
  stores : List Store := []
  next_id : Nat := 0
deriving DecidableEq, Repr

/-- Replace the first element satisfying `p` by its image under `g`
(an in-place ORM row update under a unique key). -/
def updateFirst {α : Type} (p : α → Bool) (g : α → α) : List α → List α
  | [] => []
  | x :: xs => if p x then g x :: xs else x :: updateFirst p g xs

/-- `select(Product).where(Product.url == url)...first()`. -/
def findProductByUrl (db : DB) (u : String) : Option Product :=
  db.products.find? (fun pr => pr.url == u)

/-! ## Price-change computation (`search_task.py`, lines 57-75) -/

/-- Python `round(x)` to an integer: round half to even. -/
def roundHalfEven (x : ℚ) : ℤ :=
  let f := ⌊x⌋
  if x - f < 1 / 2 then f
  else if x - f > 1 / 2 then f + 1
  else if f % 2 = 0 then f else f + 1

/-- Python `round(x, 2)`: round to two decimal places, ties to even (the
source applies it to exact decimal quantities, modelled exactly in `ℚ`). -/
def round2 (x : ℚ) : ℚ :=
  (roundHalfEven (x * 100) : ℚ) / 100

/-- The query of `calculate_price_change`:
`select(PriceHistory).where(product_id == pid).where(recorded_date < today)
.order_by(recorded_date.desc()).limit(1).first()`.
SQL fixes no order among rows sharing the maximal `recorded_date`; the
embedding returns the earliest-inserted such row, an arbitrary but fixed
representative, and the theorems pin behaviour only where the
representative is unique. -/
def latestBefore (pid today : Nat) : List PriceHistory → Option PriceHistory
  | [] => none
  | e :: rest =>
    let b := latestBefore pid today rest
    if e.product_id = pid ∧ e.recorded_date < today then
      match b with
      | none => some e
      | some e2 => if e2.recorded_date > e.recorded_date then some e2 else some e
    else b

/-- `calculate_price_change` (`search_task.py`, lines 57-75; the copy in
`scraping_task.py`, lines 24-44, is textually identical). -/
def calculate_price_change (current_price : ℚ) (product_id today : Nat)
    (hist : List PriceHistory) : ℚ :=
  match latestBefore product_id today hist with
  | none => 0
  | some previous_price =>
    if previous_price.price = 0 then 0
    else round2 (((current_price - previous_price.price) / previous_price.price) * 100)

/-! ## Search-crawl ingestion (`search_task.py`, lines 78-155) -/

/-- `save_search_result` (`search_task.py`, lines 78-155).  The Python guard
`not result.title or not result.price or not result.product_url` is
truthiness: it rejects the empty title, a price equal to `0`, and the empty
URL — and nothing else. -/
def save_search_result (result : SearchResult) (store_id : Nat) (category : String)
    (db : DB) (now today : Nat) : Option Nat × DB :=
  if result.title = "" ∨ result.price = 0 ∨ result.product_url = "" then
    (none, db)
  else
    let step1 : Nat × DB :=
      match findProductByUrl db result.product_url with
      | some existing_product =>
        let price_change :=
          calculate_price_change result.price existing_product.id today db.history
        let updated := { existing_product with
          name := result.title
          current_price := result.price
          image := result.image_url
          is_active := true
          updated_at := now
          last_scraped := some now
          scrape_date := some today
          currency := "PHP"
          price_change := price_change }
        (existing_product.id,
          { db with products :=
              (updateFirst (fun p => p.url == result.product_url) (fun _ => updated)
                db.products) })
      | none =>
        let pid := db.next_id
        let new_product : Product := {
          id := pid
          name := result.title
          url := result.product_url
          store_id := store_id
          category := category
          current_price := result.price
          currency := "PHP"
          image := result.image_url
          is_active := true
          last_scraped := some now
          scrape_date := some today
          created_at := now
          updated_at := now }
        (pid, { db with products := db.products ++ [new_product],
                        next_id := db.next_id + 1 })
    let product_id := step1.1
    let db1 := step1.2
    match db1.history.find?
        (fun e => e.product_id == product_id && e.recorded_date == today) with
    | none =>
      let price_history : PriceHistory := {
        id := db1.next_id
        product_id := product_id
        price := result.price
        recorded_date := today
        recorded_at := now }
      (some product_id,
        { db1 with history := db1.history ++ [price_history],
                   next_id := db1.next_id + 1 })
    | some _ =>
      (some product_id,
        { db1 with history :=
            (updateFirst (fun e => e.product_id == product_id && e.recorded_date == today)
              (fun e => { e with price := result.price, recorded_at := now })
              db1.history) })

/-! ## Single-URL scrape task (`scraping_task.py`) -/

/-- The `ScrapedData` dataclass of `base_scraper.py` (lines 19-27). -/
structure ScrapedData where
  name : Option String := none
  price : Option ℚ := none
  currency : String := "USD"
  image : Option String := none
  is_available : Bool := true
  error : Option String := none
deriving DecidableEq, Repr

/-- The structured return value of `scrape_single_url`.  `raisedValueError`
stands for the `ValueError` raised at `scraping_task.py` line 103, which
escapes before any `session.commit()`, discarding the session. -/
inductive ScrapeOutcome where
  | urlNotFound
  | storeNotFound
  | errorResult (msg : String)
  | raisedValueError
  | success (product_id : Nat)
deriving DecidableEq, Repr

/-- `scrape_single_url` (`scraping_task.py`, lines 47-164).  The fetched
page is external I/O, so `result` — what `BaseScraper.scrape_with_delay`
returned — is a parameter.  The read-only product lookup at line 94 is
performed, as in the source, inside the success branch; it commutes with
the `name`/`price` validation at lines 101-103 because it has no effect.
Note the success branch appends a `PriceHistory` row unconditionally
(lines 139-148): there is no lookup of an existing entry for
`(product_id, today)` on this path. -/
def scrape_single_url (db : DB) (scrape_url_id : Nat) (result : ScrapedData)
    (now today : Nat) : ScrapeOutcome × DB :=
  match db.scrape_urls.find? (fun su => su.id == scrape_url_id) with
  | none => (.urlNotFound, db)
  | some scrape_url =>
    match db.stores.find? (fun st => st.id == scrape_url.store_id) with
    | none => (.storeNotFound, db)
    | some _ =>
      match result.error with
      | some err =>
        let su1 := { scrape_url with
          last_error := some err
          error_count := scrape_url.error_count + 1 }
        let su2 := if su1.error_count ≥ 5 then { su1 with is_active := false } else su1
        (.errorResult err,
          { db with scrape_urls :=
              (updateFirst (fun x => x.id == scrape_url_id) (fun _ => su2)
                db.scrape_urls) })
      | none =>
        match result.name, result.price with
        | some nm, some pr =>
          let step1 : Nat × DB :=
            match findProductByUrl db scrape_url.url with
            | some existing_product =>
              let price_change :=
                calculate_price_change pr existing_product.id today db.history
              let updated := { existing_product with
                name := nm
                current_price := pr
                image := result.image
                price_change := if price_change ≠ 0 then price_change else 0
                last_scraped := some now
                scrape_date := some today
                updated_at := now }
              (existing_product.id,
                { db with products :=
                    (updateFirst (fun p => p.url == scrape_url.url) (fun _ => updated)
                      db.products) })
            | none =>
              let pid := db.next_id
              let new_product : Product := {
                id := pid
                name := nm
                current_price := pr
                currency := result.currency
                image := result.image
                category := scrape_url.category
                brand := scrape_url.brand
                url := scrape_url.url
                store_id := scrape_url.store_id
                price_change := 0
                last_scraped := some now
                scrape_date := some today
                created_at := now
                updated_at := now }
              (pid, { db with products := db.products ++ [new_product],
                              next_id := db.next_id + 1 })
          let product_id := step1.1
          let db1 := step1.2
          let price_history : PriceHistory := {
            id := db1.next_id
            product_id := product_id
            price := pr
            currency := result.currency
            recorded_date := today
            recorded_at := now
            was_available := result.is_available
            scrape_source := some scrape_url.url }
          let db2 := { db1 with history := db1.history ++ [price_history],
                                next_id := db1.next_id + 1 }
          let su3 := { scrape_url with
            last_scraped := some now
            last_error := none
            error_count := 0 }
          (.success product_id,
            { db2 with scrape_urls :=
                (updateFirst (fun x => x.id == scrape_url_id) (fun _ => su3)
                  db2.scrape_urls) })
        | _, _ => (.raisedValueError, db)

/-- `scrape_all_products` (`scraping_task.py`, lines 167-202): the batch
task enumerates the sources with `is_active == True` and enqueues a
`scrape_single_url` job for each; the embedding returns the enqueued ids in
order. -/
def scrape_all_products (db : DB) : List Nat :=
  (db.scrape_urls.filter (fun su => su.is_active)).map (fun su => su.id)

/-! ## The search-crawl task (`search_task.py`, lines 158-290) -/

/-- The `SearchConfigData` dataclass of `search_task.py` (lines 28-36):
the configuration snapshot taken at trigger time. -/
structure SearchConfigData where
  id : Nat
  store_id : Nat
  search_term : String
  category : String
  max_pages : Nat
  last_page_scraped : Nat
deriving DecidableEq, Repr

/-- The per-item body of the save loop of `scrape_search_config_async`
(`search_task.py`, lines 203-215): save one item, counting it when a
product id came back.  The embedded `save_search_result` is total, so the
per-item `except` at lines 213-215 has nothing to catch. -/
def saveStepFn (store_id : Nat) (category : String) (now today : Nat)
    (acc : DB × Nat) (r : SearchResult) : DB × Nat :=
  let out := save_search_result r store_id category acc.1 now today
  (out.2, acc.2 + if out.1.isSome then 1 else 0)

/-- The normal path of `scrape_search_config_async` (`search_task.py`,
lines 183-230): run the pagination driver from
`last_page_scraped + 1 if last_page_scraped > 0 else 1`, save every item,
then update the stored configuration: `status = "completed"`,
`last_scraped_at`, `total_products_found = saved_count`,
`last_page_scraped = results["pages_scraped"]`, `last_error = None`.
Returns the final crawl state, the saved count and the new database.
Browser-level exceptions, which divert to the `except` block at lines
232-243, are modelled by `scrape_search_config_error_update`. -/
def scrape_search_config_async (config : SearchConfigData)
    (oracle : Nat → SearchPageResult) (fuel : Nat) (db : DB) (now today : Nat) :
    CrawlState × Nat × DB :=
  let start_page := if config.last_page_scraped > 0 then config.last_page_scraped + 1 else 1
  let final := scrape_all_pages oracle config.max_pages start_page fuel
  let folded := final.all_results.foldl
    (saveStepFn config.store_id config.category now today) (db, 0)
  let db1 := folded.1
  let saved_count := folded.2
  let db2 := { db1 with configs :=
      (updateFirst (fun c => c.id == config.id)
        (fun c => { c with
          status := "completed"
          last_scraped_at := some now
          total_products_found := saved_count
          last_page_scraped := final.pages_scraped
          last_error := none })
        db1.configs) }
  (final, saved_count, db2)

/-- The `except` block of `scrape_search_config_async` (`search_task.py`,
lines 232-243): an unhandled exception sets `status = "error"` and
`last_error`, touching no other configuration field. -/
def scrape_search_config_error_update (db : DB) (config_id : Nat) (msg : String) : DB :=
  { db with configs :=
      (updateFirst (fun c => c.id == config_id)
        (fun c => { c with status := "error", last_error := some msg })
        db.configs) }

/-! ## Specification predicates and concrete fixtures -/

/-- The logical key of the Price History invariant: `(productId, recordedDate)`. -/
def histKey (e : PriceHistory) : Nat × Nat :=
  (e.product_id, e.recorded_date)

/-- The §3 Price History invariant: at most one entry per
`(productId, recordedDate)` pair. -/
def uniqueHistory (l : List PriceHistory) : Prop :=
  l.Pairwise (fun a b => histKey a ≠ histKey b)

/-- An extracted item with a negative price (title and URL non-empty). -/
def negItem : SearchResult :=
  { title := "x", price := -5, product_url := "u" }

/-- A well-formed extracted item. -/
def okItem : SearchResult :=
  { title := "t", price := 1, product_url := "u" }

/-- A store row. -/
def store0 : Store :=
  { id := 0, name := "Newegg", url := "https://newegg.com" }

/-- A Single-URL Source for `store0`, fresh (active, no errors). -/
def su0 : ScrapeURL :=
  { id := 1, url := "https://newegg.com/item", store_id := 0, category := "gpu" }

/-- As `su0`, but self-quarantined by the circuit breaker. -/
def su0q : ScrapeURL :=
  { id := 1, url := "https://newegg.com/item", store_id := 0, category := "gpu",
    is_active := false, error_count := 5 }

/-- A database holding one store and one Single-URL Source for it. -/
def db0 : DB :=
  { stores := [store0], scrape_urls := [su0], next_id := 2 }

/-- As `db0`, but the source is self-quarantined. -/
def db0q : DB :=
  { stores := [store0], scrape_urls := [su0q], next_id := 2 }

/-- A successful single-URL fetch result. -/
def okRes : ScrapedData :=
  { name := some "GPU", price := some 100 }

/-- A failed single-URL fetch result. -/
def errRes : ScrapedData :=
  { error := some "Failed to fetch page" }

/-- A page extractor whose every page errors (e.g. a navigation timeout). -/
def errOracle : Nat → SearchPageResult :=
  fun n => { page_number := n, error := some "timeout" }

/-- A page extractor that always reports a further page. -/
def nextOracle : Nat → SearchPageResult :=
  fun n => { page_number := n, has_next_page := true, products := [okItem] }

/-- Trigger-time snapshot of a configuration resumed from checkpoint 5. -/
def cfgD : SearchConfigData :=
  { id := 0, store_id := 0, search_term := "RTX 4090", category := "gpu",
    max_pages := 10, last_page_scraped := 5 }

/-- The stored configuration `cfgD` was snapshotted from, currently running. -/
def cfg4 : SearchConfig :=
  { id := 0, store_id := 0, category := "gpu", search_term := "RTX 4090",
    max_pages := 10, last_page_scraped := 5, status := "running" }

/-- A database holding the running configuration `cfg4`. -/
def db4 : DB :=
  { configs := [cfg4] }

/-- A price-history entry: product 7 cost 100 on day 0. -/
def entry100 : PriceHistory :=
  { id := 0, product_id := 7, price := 100, recorded_at := 0, recorded_date := 0 }

/-! ## List lemmas for the row-update and row-lookup primitives -/

theorem length_updateFirst {α : Type} (p : α → Bool) (g : α → α) (l : List α) :
    (updateFirst p g l).length = l.length := by
  induction l with
  | nil => rfl
  | cons x xs ih =>
    simp only [updateFirst]
    split <;> simp [ih]

theorem mem_updateFirst {α : Type} {p : α → Bool} {g : α → α} {l : List α} {b : α}
    (hb : b ∈ updateFirst p g l) : b ∈ l ∨ ∃ a, a ∈ l ∧ b = g a := by
  induction l with
  | nil => simp [updateFirst] at hb
  | cons x xs ih =>
    simp only [updateFirst] at hb
    split at hb
    · rcases List.mem_cons.mp hb with h | h
      · exact Or.inr ⟨x, List.mem_cons_self x xs, h⟩
      · exact Or.inl (List.mem_cons_of_mem x h)
    · rcases List.mem_cons.mp hb with h | h
      · exact Or.inl (h ▸ List.mem_cons_self x xs)
      · rcases ih h with h' | ⟨a, ha, rfl⟩
        · exact Or.inl (List.mem_cons_of_mem x h')
        · exact Or.inr ⟨a, List.mem_cons_of_mem x ha, rfl⟩

theorem find?_updateFirst {α : Type} {p : α → Bool} {g : α → α} {l : List α} {x : α}
    (hfind : l.find? p = some x) (hg : p (g x) = true) :
    (updateFirst p g l).find? p = some (g x) := by
  induction l with
  | nil => simp at hfind
  | cons a as ih =>
    by_cases hpa : p a
    · have hx : a = x := by
        rw [List.find?_cons] at hfind
        simp [hpa] at hfind
        exact hfind
      subst hx
      simp [updateFirst, hpa, List.find?_cons, hg]
    · rw [List.find?_cons] at hfind
      simp only [Bool.not_eq_true] at hpa
      rw [hpa] at hfind
      simp only [updateFirst, hpa, if_neg]
      simp only [Bool.false_eq_true, if_false]
      rw [List.find?_cons, hpa]
      exact ih hfind

theorem find?_append_of_none {α : Type} {p : α → Bool} {l₁ l₂ : List α}
    (h : l₁.find? p = none) : (l₁ ++ l₂).find? p = l₂.find? p := by
  induction l₁ with
  | nil => rfl
  | cons x xs ih =>
    rw [List.find?_cons] at h
    cases hpx : p x with
    | true => rw [hpx] at h; simp at h
    | false =>
      rw [hpx] at h
      rw [List.cons_append, List.find?_cons, hpx]
      exact ih h

theorem uniqueHistory_updateFirst {p : PriceHistory → Bool}
    {g : PriceHistory → PriceHistory} (hg : ∀ a, histKey (g a) = histKey a)
    {l : List PriceHistory} (h : uniqueHistory l) :
    uniqueHistory (updateFirst p g l) := by
  induction l with
  | nil => exact h
  | cons x xs ih =>
    rw [uniqueHistory, List.pairwise_cons] at h
    obtain ⟨hx, hxs⟩ := h
    simp only [updateFirst]
    split
    · rw [uniqueHistory, List.pairwise_cons]
      exact ⟨fun b hb => by rw [hg]; exact hx b hb, hxs⟩
    · rw [uniqueHistory, List.pairwise_cons]
      refine ⟨fun b hb => ?_, ih hxs⟩
      rcases mem_updateFirst hb with hbmem | ⟨a, ha, rfl⟩
      · exact hx b hbmem
      · rw [hg]; exact hx a ha

theorem uniqueHistory_append {l : List PriceHistory} {e : PriceHistory}
    (h : uniqueHistory l) (he : ∀ a ∈ l, histKey a ≠ histKey e) :
    uniqueHistory (l ++ [e]) := by
  rw [uniqueHistory, List.pairwise_append]
  refine ⟨h, List.pairwise_singleton _ _, ?_⟩
  intro a ha b hb
  rw [List.mem_singleton] at hb
  subst hb
  exact he a ha

/-! ## Lemmas about the previous-day query -/

theorem latestBefore_mem {pid today : Nat} {l : List PriceHistory} {b : PriceHistory}
    (h : latestBefore pid today l = some b) :
    b ∈ l ∧ b.product_id = pid ∧ b.recorded_date < today := by
  induction l with
  | nil => simp [latestBefore] at h
  | cons a rest ih =>
    simp only [latestBefore] at h
    split at h
    case isTrue hc =>
      cases hb : latestBefore pid today rest with
      | none =>
        simp only [hb, Option.some.injEq] at h
        subst h
        exact ⟨List.mem_cons_self a rest, hc.1, hc.2⟩
      | some e2 =>
        simp only [hb] at h
        split at h <;> simp only [Option.some.injEq] at h <;> subst h
        · exact ⟨List.mem_cons_of_mem a (ih hb).1, (ih hb).2.1, (ih hb).2.2⟩
        · exact ⟨List.mem_cons_self a rest, hc.1, hc.2⟩
    case isFalse hc =>
      obtain ⟨hmem, h1, h2⟩ := ih h
      exact ⟨List.mem_cons_of_mem a hmem, h1, h2⟩

theorem latestBefore_eq_none {pid today : Nat} {l : List PriceHistory}
    (h : ∀ e ∈ l, e.product_id = pid → ¬ e.recorded_date < today) :
    latestBefore pid today l = none := by
  induction l with
  | nil => rfl
  | cons a rest ih =>
    simp only [latestBefore]
    rw [if_neg]
    · exact ih fun e he => h e (List.mem_cons_of_mem a he)
    · rintro ⟨h1, h2⟩
      exact h a (List.mem_cons_self a rest) h1 h2

theorem latestBefore_eq_some {pid today : Nat} {l : List PriceHistory}
    {e : PriceHistory} (he : e ∈ l) (hpid : e.product_id = pid)
    (hlt : e.recorded_date < today)
    (hmax : ∀ x ∈ l, x.product_id = pid → x.recorded_date < today →
      x.recorded_date ≤ e.recorded_date)
    (huniq : ∀ x ∈ l, x.product_id = pid → x.recorded_date = e.recorded_date →
      x = e) :
    latestBefore pid today l = some e := by
  induction l with
  | nil => simp at he
  | cons a rest ih =>
    simp only [latestBefore]
    by_cases ha : a.product_id = pid ∧ a.recorded_date < today
    · rw [if_pos ha]
      by_cases hae : a = e
      · subst hae
        cases hb : latestBefore pid today rest with
        | none => simp only [hb]
        | some e2 =>
          obtain ⟨he2mem, he2pid, he2lt⟩ := latestBefore_mem hb
          have hle : e2.recorded_date ≤ a.recorded_date :=
            hmax e2 (List.mem_cons_of_mem a he2mem) he2pid he2lt
          simp only [hb]
          rw [if_neg (by omega)]
      · have herest : e ∈ rest := by
          rcases List.mem_cons.mp he with h | h
          · exact absurd h.symm hae
          · exact h
        have hale : a.recorded_date ≤ e.recorded_date :=
          hmax a (List.mem_cons_self a rest) ha.1 ha.2
        have halt : a.recorded_date < e.recorded_date := by
          rcases Nat.lt_or_ge a.recorded_date e.recorded_date with h | h
          · exact h
          · have : a.recorded_date = e.recorded_date := by omega
            exact absurd (huniq a (List.mem_cons_self a rest) ha.1 this) hae
        have halt2 : e.recorded_date > a.recorded_date := halt
        simp only [ih herest
          (fun x hx h1 h2 => hmax x (List.mem_cons_of_mem a hx) h1 h2)
          (fun x hx h1 h2 => huniq x (List.mem_cons_of_mem a hx) h1 h2)]
        rw [if_pos halt2]
    · rw [if_neg ha]
      have herest : e ∈ rest := by
        rcases List.mem_cons.mp he with h | h
        · exact absurd ⟨h ▸ hpid, h ▸ hlt⟩ ha
        · exact h
      exact ih herest
        (fun x hx h1 h2 => hmax x (List.mem_cons_of_mem a hx) h1 h2)
        (fun x hx h1 h2 => huniq x (List.mem_cons_of_mem a hx) h1 h2)

/-! ## Equations and invariants of the pagination loop -/

theorem loop_succ_error {oracle : Nat → SearchPageResult} {m fuel s : Nat}
    {st : CrawlState} {msg : String} (h : (oracle s).error = some msg) :
    scrape_all_pages_loop oracle m (fuel + 1) s st
      = { st with extracted_pages := st.extracted_pages ++ [s] } := by
  simp only [scrape_all_pages_loop, h]

theorem loop_succ_ok {oracle : Nat → SearchPageResult} {m fuel s : Nat}
    {st : CrawlState} (h : (oracle s).error = none) :
    scrape_all_pages_loop oracle m (fuel + 1) s st =
      (if ¬ (oracle s).has_next_page then
        { st with all_results := st.all_results ++ (oracle s).products,
                  pages_scraped := s,
                  extracted_pages := st.extracted_pages ++ [s] }
      else if m > 0 ∧ s ≥ m then
        { st with all_results := st.all_results ++ (oracle s).products,
                  pages_scraped := s,
                  extracted_pages := st.extracted_pages ++ [s] }
      else scrape_all_pages_loop oracle m fuel (s + 1)
        { st with all_results := st.all_results ++ (oracle s).products,
                  pages_scraped := s,
                  extracted_pages := st.extracted_pages ++ [s] }) := by
  simp only [scrape_all_pages_loop, h]

theorem loop_pages_scraped (oracle : Nat → SearchPageResult) (m : Nat) :
    ∀ fuel s st, (scrape_all_pages_loop oracle m fuel s st).pages_scraped
        = st.pages_scraped ∨
      s ≤ (scrape_all_pages_loop oracle m fuel s st).pages_scraped := by
  intro fuel
  induction fuel with
  | zero => intro s st; exact Or.inl rfl
  | succ n ih =>
    intro s st
    cases herr : (oracle s).error with
    | some msg => rw [loop_succ_error herr]; exact Or.inl rfl
    | none =>
      rw [loop_succ_ok herr]
      split
      · exact Or.inr (Nat.le_refl s)
      · split
        · exact Or.inr (Nat.le_refl s)
        · rcases ih (s + 1) _ with h | h
          · rw [h]; exact Or.inr (Nat.le_refl s)
          · exact Or.inr (Nat.le_of_succ_le h)

theorem loop_extracted_length (oracle : Nat → SearchPageResult) {m : Nat}
    (hm : 0 < m) : ∀ fuel s st,
    (scrape_all_pages_loop oracle m fuel s st).extracted_pages.length
      ≤ st.extracted_pages.length + max 1 (m + 1 - s) := by
  intro fuel
  induction fuel with
  | zero =>
    intro s st
    rw [show scrape_all_pages_loop oracle m 0 s st = st from rfl]
    have : (1 : Nat) ≤ max 1 (m + 1 - s) := le_max_left _ _
    omega
  | succ n ih =>
    intro s st
    cases herr : (oracle s).error with
    | some msg =>
      rw [loop_succ_error herr]
      simp only [List.length_append, List.length_singleton]
      have : (1 : Nat) ≤ max 1 (m + 1 - s) := le_max_left _ _
      omega
    | none =>
      rw [loop_succ_ok herr]
      split
      · simp only [List.length_append, List.length_singleton]
        have : (1 : Nat) ≤ max 1 (m + 1 - s) := le_max_left _ _
        omega
      · split
        case isTrue hstop =>
          simp only [List.length_append, List.length_singleton]
          have : (1 : Nat) ≤ max 1 (m + 1 - s) := le_max_left _ _
          omega
        case isFalse hstop =>
          have hs : s < m := by
            rcases Nat.lt_or_ge s m with h | h
            · exact h
            · exact absurd ⟨hm, h⟩ hstop
          have := ih (s + 1)
            { st with all_results := st.all_results ++ (oracle s).products,
                      pages_scraped := s,
                      extracted_pages := st.extracted_pages ++ [s] }
          simp only [List.length_append, List.length_singleton] at this
          have hmax1 : max 1 (m + 1 - (s + 1)) = m - s := by omega
          have hmax2 : max 1 (m + 1 - s) = m + 1 - s := by omega
          omega

theorem loop_extracted_mem (oracle : Nat → SearchPageResult) {m : Nat}
    (hm : 0 < m) : ∀ fuel s st, ∀ q ∈
      (scrape_all_pages_loop oracle m fuel s st).extracted_pages,
      q ∈ st.extracted_pages ∨ (s ≤ q ∧ q ≤ max s m) := by
  intro fuel
  induction fuel with
  | zero => intro s st q hq; exact Or.inl hq
  | succ n ih =>
    intro s st q hq
    cases herr : (oracle s).error with
    | some msg =>
      rw [loop_succ_error herr] at hq
      rcases List.mem_append.mp hq with h | h
      · exact Or.inl h
      · rw [List.mem_singleton] at h
        subst h
        exact Or.inr ⟨Nat.le_refl q, le_max_left q m⟩
    | none =>
      rw [loop_succ_ok herr] at hq
      split at hq
      · rcases List.mem_append.mp hq with h | h
        · exact Or.inl h
        · rw [List.mem_singleton] at h
          subst h
          exact Or.inr ⟨Nat.le_refl q, le_max_left q m⟩
      · split at hq
        · rcases List.mem_append.mp hq with h | h
          · exact Or.inl h
          · rw [List.mem_singleton] at h
            subst h
            exact Or.inr ⟨Nat.le_refl q, le_max_left q m⟩
        case isFalse hstop =>
          have hs : s < m := by
            rcases Nat.lt_or_ge s m with h | h
            · exact h
            · exact absurd ⟨hm, h⟩ hstop
          rcases ih (s + 1) _ q hq with h | ⟨h1, h2⟩
          · rcases List.mem_append.mp h with h' | h'
            · exact Or.inl h'
            · rw [List.mem_singleton] at h'
              subst h'
              exact Or.inr ⟨Nat.le_refl q, le_max_left q m⟩
          · refine Or.inr ⟨Nat.le_of_succ_le h1, ?_⟩
            have : max (s + 1) m = m := by omega
            rw [this] at h2
            have : max s m = m := by omega
            omega

/-! ## Frame and success lemmas for the ingestion engine -/

theorem save_search_result_configs (r : SearchResult) (sid : Nat) (cat : String)
    (db : DB) (now today : Nat) :
    (save_search_result r sid cat db now today).2.configs = db.configs := by
  unfold save_search_result
  split
  · rfl
  · cases hfp : findProductByUrl db r.product_url <;>
      simp only [hfp] <;> (split <;> rfl)

theorem foldl_saveStepFn_configs (sid : Nat) (cat : String) (now today : Nat) :
    ∀ (rs : List SearchResult) (db : DB) (n : Nat),
    (rs.foldl (saveStepFn sid cat now today) (db, n)).1.configs = db.configs := by
  intro rs
  induction rs with
  | nil => intro db n; rfl
  | cons r rest ih =>
    intro db n
    rw [List.foldl_cons]
    show (rest.foldl (saveStepFn sid cat now today)
      ((save_search_result r sid cat db now today).2, _)).1.configs = db.configs
    rw [ih]
    exact save_search_result_configs r sid cat db now today

theorem save_search_result_skip (r : SearchResult) (sid : Nat) (cat : String)
    (db : DB) (now today : Nat)
    (hg : r.title = "" ∨ r.price = 0 ∨ r.product_url = "") :
    save_search_result r sid cat db now today = (none, db) := by
  unfold save_search_result
  rw [if_pos hg]

theorem save_search_result_saves (r : SearchResult) (sid : Nat) (cat : String)
    (db : DB) (now today : Nat)
    (hg : ¬ (r.title = "" ∨ r.price = 0 ∨ r.product_url = "")) :
    ∃ pid, (save_search_result r sid cat db now today).1 = some pid := by
  unfold save_search_result
  rw [if_neg hg]
  cases hfp : findProductByUrl db r.product_url <;>
    simp only [hfp] <;> (split <;> exact ⟨_, rfl⟩)

theorem find?_append_singleton {α : Type} {p : α → Bool} {l : List α} {x : α}
    (h : l.find? p = none) (hx : p x = true) : (l ++ [x]).find? p = some x := by
  rw [find?_append_of_none h]
  simp [List.find?, hx]

theorem save_search_result_spec (r : SearchResult) (sid : Nat) (cat : String)
    (db : DB) (now today : Nat)
    (hg : ¬ (r.title = "" ∨ r.price = 0 ∨ r.product_url = "")) :
    ∃ p', (save_search_result r sid cat db now today).1 = some p'.id ∧
      findProductByUrl (save_search_result r sid cat db now today).2 r.product_url
        = some p' ∧
      (save_search_result r sid cat db now today).2.history.find?
        (fun e => e.product_id == p'.id && e.recorded_date == today) ≠ none := by
  unfold save_search_result
  rw [if_neg hg]
  cases hfp : findProductByUrl db r.product_url with
  | some p =>
    have hfp2 : db.products.find? (fun pr => pr.url == r.product_url) = some p := hfp
    have hpurl := List.find?_some hfp2
    simp only [hfp]
    cases hh : db.history.find?
        (fun e => e.product_id == p.id && e.recorded_date == today) with
    | none =>
      simp only [hh]
      refine ⟨_, ?_, find?_updateFirst hfp2 hpurl, ?_⟩
      · rfl
      · dsimp only
        rw [find?_append_singleton hh (by simp)]
        simp
    | some old =>
      have hold := List.find?_some hh
      simp only [hh]
      refine ⟨_, ?_, find?_updateFirst hfp2 hpurl, ?_⟩
      · rfl
      · dsimp only
        rw [find?_updateFirst hh hold]
        simp
  | none =>
    have hfp2 : db.products.find? (fun pr => pr.url == r.product_url) = none := hfp
    simp only [hfp]
    cases hh : db.history.find?
        (fun e => e.product_id == db.next_id && e.recorded_date == today) with
    | none =>
      simp only [hh]
      refine ⟨_, ?_, find?_append_singleton hfp2 (by simp), ?_⟩
      · rfl
      · dsimp only
        rw [find?_append_singleton hh (by simp)]
        simp
    | some old =>
      have hold := List.find?_some hh
      simp only [hh]
      refine ⟨_, ?_, find?_append_singleton hfp2 (by simp), ?_⟩
      · rfl
      · dsimp only
        rw [find?_updateFirst hh hold]
        simp

/-! ## Lemmas about the price parser -/

theorem stripPeso_eq_self {s : List Char} (h : 'â' ∉ s) : stripPeso s = s := by
  induction s with
  | nil => rfl
  | cons c rest ih =>
    have hc : c ≠ 'â' := fun hh => h (hh ▸ List.mem_cons_self c rest)
    have hr : 'â' ∉ rest := fun hh => h (List.mem_cons_of_mem c hh)
    rw [stripPeso.eq_def]
    split
    · rename_i rest1 heq
      rw [List.cons.injEq] at heq
      exact absurd heq.1 hc
    · rename_i c2 rest2 hno heq
      rw [List.cons.injEq] at heq
      obtain ⟨h1, h2⟩ := heq
      subst h1
      subst h2
      rw [ih hr]
    · rename_i heq
      exact absurd heq (List.cons_ne_nil c rest)

theorem stripPHP_eq_self {s : List Char} (h : 'P' ∉ s) : stripPHP s = s := by
  induction s with
  | nil => rfl
  | cons c rest ih =>
    have hc : c ≠ 'P' := fun hh => h (hh ▸ List.mem_cons_self c rest)
    have hr : 'P' ∉ rest := fun hh => h (List.mem_cons_of_mem c hh)
    rw [stripPHP.eq_def]
    split
    · rename_i rest1 heq
      rw [List.cons.injEq] at heq
      exact absurd heq.1 hc
    · rename_i c2 rest2 hno heq
      rw [List.cons.injEq] at heq
      obtain ⟨h1, h2⟩ := heq
      subst h1
      subst h2
      rw [ih hr]
    · rename_i heq
      exact absurd heq (List.cons_ne_nil c rest)

theorem stripComma_eq_self {s : List Char} (h : ',' ∉ s) : stripComma s = s := by
  induction s with
  | nil => rfl
  | cons c rest ih =>
    have hc : c ≠ ',' := fun hh => h (hh ▸ List.mem_cons_self c rest)
    have hr : ',' ∉ rest := fun hh => h (List.mem_cons_of_mem c hh)
    rw [stripComma.eq_def]
    split
    · rename_i heq
      rw [List.cons.injEq] at heq
      exact absurd heq.1 hc
    · rename_i c2 rest2 hno heq
      rw [List.cons.injEq] at heq
      obtain ⟨h1, h2⟩ := heq
      subst h1
      subst h2
      rw [ih hr]
    · rename_i heq
      exact absurd heq (List.cons_ne_nil c rest)

theorem stripComma_append {l r : List Char} (h : ',' ∉ l) :
    stripComma (l ++ r) = l ++ stripComma r := by
  induction l with
  | nil => rfl
  | cons c cs ih =>
    have hc : c ≠ ',' := fun hh => h (hh ▸ List.mem_cons_self c cs)
    have hr : ',' ∉ cs := fun hh => h (List.mem_cons_of_mem c hh)
    rw [List.cons_append, stripComma.eq_def]
    split
    · rename_i heq
      rw [List.cons.injEq] at heq
      exact absurd heq.1 hc
    · rename_i c2 rest2 hno heq
      rw [List.cons.injEq] at heq
      obtain ⟨h1, h2⟩ := heq
      subst h1
      subst h2
      rw [ih hr]
      rfl
    · rename_i heq
      exact absurd heq (List.cons_ne_nil c (cs ++ r))

theorem dropWhile_eq_self_of_all {p : Char → Bool} {s : List Char}
    (h : ∀ c ∈ s, p c = false) : s.dropWhile p = s := by
  cases s with
  | nil => rfl
  | cons c rest =>
    rw [List.dropWhile_cons, h c (List.mem_cons_self c rest)]
    simp

theorem pyStrip_eq_self {s : List Char} (h : ∀ c ∈ s, pyIsSpace c = false) :
    pyStrip s = s := by
  unfold pyStrip
  rw [dropWhile_eq_self_of_all h,
    dropWhile_eq_self_of_all (fun c hc => h c (List.mem_reverse.mp hc))]
  exact List.reverse_reverse s

theorem takeWhile_append_all {p : Char → Bool} {l r : List Char}
    (h : ∀ c ∈ l, p c = true) : (l ++ r).takeWhile p = l ++ r.takeWhile p := by
  induction l with
  | nil => rfl
  | cons c cs ih =>
    rw [List.cons_append, List.takeWhile_cons, h c (List.mem_cons_self c cs)]
    simp only [if_true]
    rw [ih (fun x hx => h x (List.mem_cons_of_mem c hx))]
    rfl

theorem ne_of_isDigit {c c0 : Char} (h : c.isDigit = true)
    (h0 : c0.isDigit = false) : c ≠ c0 := by
  intro he
  rw [he, h0] at h
  exact Bool.noConfusion h

theorem pyIsSpace_eq_false_of_isDigit {c : Char} (h : c.isDigit = true) :
    pyIsSpace c = false := by
  have h1 : c ≠ ' ' := ne_of_isDigit h (by decide)
  have h2 : c ≠ '\t' := ne_of_isDigit h (by decide)
  have h3 : c ≠ '\n' := ne_of_isDigit h (by decide)
  have h4 : c ≠ '\r' := ne_of_isDigit h (by decide)
  have h5 : c ≠ '\x0b' := ne_of_isDigit h (by decide)
  have h6 : c ≠ '\x0c' := ne_of_isDigit h (by decide)
  simp [pyIsSpace, h1, h2, h3, h4, h5, h6]

theorem notMem_of_digits {c0 : Char} (h0 : c0.isDigit = false) {s : List Char}
    (hall : ∀ c ∈ s, c.isDigit = true) : c0 ∉ s := by
  intro hm
  have h := hall c0 hm
  rw [h0] at h
  exact Bool.noConfusion h

theorem splitAtFirst_none {p : Char → Bool} {s : List Char}
    (h : ∀ c ∈ s, p c = false) : splitAtFirst p s = (s, none) := by
  induction s with
  | nil => rfl
  | cons c cs ih =>
    simp only [splitAtFirst]
    rw [h c (List.mem_cons_self c cs)]
    simp only [Bool.false_eq_true, if_false]
    rw [ih (fun x hx => h x (List.mem_cons_of_mem c hx))]

theorem signOf_cons_of_ne {d : Char} {r : List Char} (h1 : d ≠ '-')
    (h2 : d ≠ '+') : signOf (d :: r) = (1, d :: r) := by
  unfold signOf
  rw [if_neg, if_neg]
  · intro hh
    simp only [List.take_succ_cons, List.take_zero, List.cons.injEq] at hh
    exact h2 hh.1
  · intro hh
    simp only [List.take_succ_cons, List.take_zero, List.cons.injEq] at hh
    exact h1 hh.1

theorem pyFloat_digits {ds : List Char} (hne : ds ≠ [])
    (hall : ∀ c ∈ ds, c.isDigit = true) :
    pyFloat ds = some (digitsToNat ds) := by
  obtain ⟨d, ds2, rfl⟩ : ∃ d ds2, ds = d :: ds2 := by
    cases ds with
    | nil => exact absurd rfl hne
    | cons d ds2 => exact ⟨d, ds2, rfl⟩
  have hd := hall d (List.mem_cons_self d ds2)
  have hsp : pyStrip (d :: ds2) = d :: ds2 :=
    pyStrip_eq_self (fun c hc => pyIsSpace_eq_false_of_isDigit (hall c hc))
  have hsg : signOf (d :: ds2) = (1, d :: ds2) :=
    signOf_cons_of_ne (ne_of_isDigit hd (by decide)) (ne_of_isDigit hd (by decide))
  have heE : splitAtFirst (fun c => c = 'e' || c = 'E') (d :: ds2)
      = (d :: ds2, none) := by
    refine splitAtFirst_none (fun c hc => ?_)
    have h1 : c ≠ 'e' := ne_of_isDigit (hall c hc) (by decide)
    have h2 : c ≠ 'E' := ne_of_isDigit (hall c hc) (by decide)
    simp [h1, h2]
  have hdot : splitAtFirst (fun c => c = '.') (d :: ds2) = (d :: ds2, none) := by
    refine splitAtFirst_none (fun c hc => ?_)
    have h1 : c ≠ '.' := ne_of_isDigit (hall c hc) (by decide)
    simp [h1]
  unfold pyFloat
  rw [hsp, hsg]
  simp only
  rw [heE]
  simp only
  rw [hdot]
  simp only [Option.getD_none]
  rw [if_pos]
  · show some (mulPow10 (1 * ((digitsToNat (d :: ds2) : ℚ)
      + (digitsToNat [] : ℚ) / pow10 (List.length []))) (Int.ofNat 0))
      = some (digitsToNat (d :: ds2))
    rw [show digitsToNat [] = 0 from rfl]
    rw [show mulPow10 (1 * ((digitsToNat (d :: ds2) : ℚ) + (0 : Nat) / pow10 (List.length [])))
        (Int.ofNat 0)
      = 1 * ((digitsToNat (d :: ds2) : ℚ) + (0 : Nat) / pow10 (List.length [])) * pow10 0
      from rfl]
    simp [pow10]
  · refine ⟨Or.inl (List.cons_ne_nil d ds2), List.all_eq_true.mpr hall, rfl⟩

theorem dropWhile_cons_false {p : Char → Bool} {c : Char} {t : List Char}
    (h : p c = false) : List.dropWhile p (c :: t) = c :: t := by
  rw [List.dropWhile_cons, h]
  simp

theorem pyStrip_eq_self_ends {s : List Char} {a b : Char}
    (hh : s.head? = some a) (hl : s.getLast? = some b)
    (ha : pyIsSpace a = false) (hb : pyIsSpace b = false) : pyStrip s = s := by
  unfold pyStrip
  have h1 : s.dropWhile pyIsSpace = s := by
    cases s with
    | nil => exact absurd hh (by simp)
    | cons c tt =>
      rw [List.head?_cons, Option.some.injEq] at hh
      subst hh
      exact dropWhile_cons_false ha
  rw [h1]
  have h2 : s.reverse.dropWhile pyIsSpace = s.reverse := by
    cases hrev : s.reverse with
    | nil => rfl
    | cons c tt =>
      have hc : c = b := by
        have hx := List.head?_reverse s
        rw [hrev, hl, List.head?_cons, Option.some.injEq] at hx
        exact hx
      subst hc
      exact dropWhile_cons_false hb
  rw [h2, List.reverse_reverse]

theorem pyStrip_append_space {l : List Char} (hne : l ≠ [])
    (hall : ∀ c ∈ l, c.isDigit = true) : pyStrip (l ++ [' ']) = l := by
  obtain ⟨d, t, rfl⟩ : ∃ d t, l = d :: t := by
    cases l with
    | nil => exact absurd rfl hne
    | cons d t => exact ⟨d, t, rfl⟩
  unfold pyStrip
  rw [List.cons_append,
    dropWhile_cons_false (pyIsSpace_eq_false_of_isDigit (hall d (List.mem_cons_self d t)))]
  rw [show (d :: (t ++ [' '])).reverse = ' ' :: (d :: t).reverse by simp]
  rw [List.dropWhile_cons, show pyIsSpace ' ' = true from rfl]
  simp only [if_true]
  rw [dropWhile_eq_self_of_all
    (fun c hc => pyIsSpace_eq_false_of_isDigit (hall c (List.mem_reverse.mp hc)))]
  exact List.reverse_reverse _

theorem pyFloat_en_dash {ds es : List Char} (hd : ds ≠ [])
    (hall1 : ∀ c ∈ ds, c.isDigit = true) (hall2 : ∀ c ∈ es, c.isDigit = true) :
    pyFloat (ds ++ '–' :: es) = none := by
  obtain ⟨d, t, rfl⟩ : ∃ d t, ds = d :: t := by
    cases ds with
    | nil => exact absurd rfl hd
    | cons d t => exact ⟨d, t, rfl⟩
  have hmem : ∀ c ∈ (d :: t) ++ '–' :: es, c.isDigit = true ∨ c = '–' := by
    intro c hc
    rcases List.mem_append.mp hc with h | h
    · exact Or.inl (hall1 c h)
    · rcases List.mem_cons.mp h with h | h
      · exact Or.inr h
      · exact Or.inl (hall2 c h)
  have hsp : pyStrip ((d :: t) ++ '–' :: es) = (d :: t) ++ '–' :: es := by
    refine pyStrip_eq_self (fun c hc => ?_)
    rcases hmem c hc with h | h
    · exact pyIsSpace_eq_false_of_isDigit h
    · subst h
      decide
  have hsg : signOf ((d :: t) ++ '–' :: es) = (1, (d :: t) ++ '–' :: es) := by
    rw [List.cons_append]
    exact signOf_cons_of_ne
      (ne_of_isDigit (hall1 d (List.mem_cons_self d t)) (by decide))
      (ne_of_isDigit (hall1 d (List.mem_cons_self d t)) (by decide))
  have heE : splitAtFirst (fun c => c = 'e' || c = 'E') ((d :: t) ++ '–' :: es)
      = ((d :: t) ++ '–' :: es, none) := by
    refine splitAtFirst_none (fun c hc => ?_)
    rcases hmem c hc with h | h
    · have h1 : c ≠ 'e' := ne_of_isDigit h (by decide)
      have h2 : c ≠ 'E' := ne_of_isDigit h (by decide)
      simp [h1, h2]
    · subst h
      decide
  have hdot : splitAtFirst (fun c => c = '.') ((d :: t) ++ '–' :: es)
      = ((d :: t) ++ '–' :: es, none) := by
    refine splitAtFirst_none (fun c hc => ?_)
    rcases hmem c hc with h | h
    · have h1 : c ≠ '.' := ne_of_isDigit h (by decide)
      simp [h1]
    · subst h
      decide
  unfold pyFloat
  rw [hsp, hsg]
  simp only
  rw [heE]
  simp only
  rw [hdot]
  simp only [Option.getD_none]
  rw [if_neg]
  rintro ⟨-, hall, -⟩
  have hbad := List.all_eq_true.mp hall '–' (by simp)
  exact absurd hbad (by decide)

theorem parse_price_range_spaced {ds es : List Char} (hd : ds ≠ []) (he : es ≠ [])
    (hall1 : ∀ c ∈ ds, c.isDigit = true) (hall2 : ∀ c ∈ es, c.isDigit = true) :
    parse_price (ds ++ ' ' :: '-' :: ' ' :: es) = some (digitsToNat ds) := by
  obtain ⟨d, t, rfl⟩ : ∃ d t, ds = d :: t := by
    cases ds with
    | nil => exact absurd rfl hd
    | cons d t => exact ⟨d, t, rfl⟩
  obtain ⟨e1, es2, rfl⟩ : ∃ e1 es2, es = e1 :: es2 := by
    cases es with
    | nil => exact absurd rfl he
    | cons e1 es2 => exact ⟨e1, es2, rfl⟩
  have hmem : ∀ c ∈ (d :: t) ++ ' ' :: '-' :: ' ' :: (e1 :: es2),
      c.isDigit = true ∨ c = ' ' ∨ c = '-' := by
    intro c hc
    rcases List.mem_append.mp hc with h | h
    · exact Or.inl (hall1 c h)
    · rcases List.mem_cons.mp h with h | h
      · exact Or.inr (Or.inl h)
      · rcases List.mem_cons.mp h with h | h
        · exact Or.inr (Or.inr h)
        · rcases List.mem_cons.mp h with h | h
          · exact Or.inr (Or.inl h)
          · exact Or.inl (hall2 c h)
  have hpeso : 'â' ∉ (d :: t) ++ ' ' :: '-' :: ' ' :: (e1 :: es2) := by
    intro hm
    rcases hmem _ hm with h | h | h
    · exact absurd h (by decide)
    · exact absurd h (by decide)
    · exact absurd h (by decide)
  have hphp : 'P' ∉ (d :: t) ++ ' ' :: '-' :: ' ' :: (e1 :: es2) := by
    intro hm
    rcases hmem _ hm with h | h | h
    · exact absurd h (by decide)
    · exact absurd h (by decide)
    · exact absurd h (by decide)
  have hcomma : ',' ∉ (d :: t) ++ ' ' :: '-' :: ' ' :: (e1 :: es2) := by
    intro hm
    rcases hmem _ hm with h | h | h
    · exact absurd h (by decide)
    · exact absurd h (by decide)
    · exact absurd h (by decide)
  have hl0 : (e1 :: es2).getLast? = some ((e1 :: es2).getLast (List.cons_ne_nil e1 es2)) :=
    List.getLast?_eq_getLast _ _
  have hlast : ((d :: t) ++ ' ' :: '-' :: ' ' :: (e1 :: es2)).getLast?
      = some ((e1 :: es2).getLast (List.cons_ne_nil e1 es2)) := by
    rw [List.getLast?_append,
      show (' ' :: '-' :: ' ' :: (e1 :: es2)) = [' ', '-', ' '] ++ (e1 :: es2) from rfl,
      List.getLast?_append, hl0, Option.or_some, Option.or_some]
  have hstrip : pyStrip ((d :: t) ++ ' ' :: '-' :: ' ' :: (e1 :: es2))
      = (d :: t) ++ ' ' :: '-' :: ' ' :: (e1 :: es2) := by
    refine pyStrip_eq_self_ends ?_ hlast
      (pyIsSpace_eq_false_of_isDigit (hall1 d (List.mem_cons_self d t)))
      (pyIsSpace_eq_false_of_isDigit (hall2 _ (List.getLast_mem _)))
    rw [List.cons_append, List.head?_cons]
  have hcont : ((d :: t) ++ ' ' :: '-' :: ' ' :: (e1 :: es2)).contains '-' = true :=
    List.elem_iff.mpr (by simp)
  simp only [parse_price]
  rw [if_neg (by rw [List.cons_append, List.isEmpty_cons]; exact Bool.false_ne_true)]
  rw [stripPeso_eq_self hpeso, stripPHP_eq_self hphp, stripComma_eq_self hcomma, hstrip]
  rw [if_pos hcont]
  rw [takeWhile_append_all (fun c hc => by
    have hne : c ≠ '-' := ne_of_isDigit (hall1 c hc) (by decide)
    simp [hne])]
  rw [show List.takeWhile (fun c => decide (c ≠ '-')) (' ' :: '-' :: ' ' :: (e1 :: es2))
      = [' '] from ?_]
  · rw [pyStrip_append_space (List.cons_ne_nil d t) hall1]
    exact pyFloat_digits (List.cons_ne_nil d t) hall1
  · rw [List.takeWhile_cons, show (decide (' ' ≠ '-')) = true from rfl]
    simp only [if_true]
    rw [List.takeWhile_cons, show (decide ('-' ≠ '-')) = false from rfl]
    simp

theorem parse_price_range_bare {ds es : List Char} (hd : ds ≠ []) (he : es ≠ [])
    (hall1 : ∀ c ∈ ds, c.isDigit = true) (hall2 : ∀ c ∈ es, c.isDigit = true) :
    parse_price (ds ++ '-' :: es) = some (digitsToNat ds) := by
  obtain ⟨d, t, rfl⟩ : ∃ d t, ds = d :: t := by
    cases ds with
    | nil => exact absurd rfl hd
    | cons d t => exact ⟨d, t, rfl⟩
  obtain ⟨e1, es2, rfl⟩ : ∃ e1 es2, es = e1 :: es2 := by
    cases es with
    | nil => exact absurd rfl he
    | cons e1 es2 => exact ⟨e1, es2, rfl⟩
  have hmem : ∀ c ∈ (d :: t) ++ '-' :: (e1 :: es2), c.isDigit = true ∨ c = '-' := by
    intro c hc
    rcases List.mem_append.mp hc with h | h
    · exact Or.inl (hall1 c h)
    · rcases List.mem_cons.mp h with h | h
      · exact Or.inr h
      · exact Or.inl (hall2 c h)
  have hpeso : 'â' ∉ (d :: t) ++ '-' :: (e1 :: es2) := by
    intro hm
    rcases hmem _ hm with h | h
    · exact absurd h (by decide)
    · exact absurd h (by decide)
  have hphp : 'P' ∉ (d :: t) ++ '-' :: (e1 :: es2) := by
    intro hm
    rcases hmem _ hm with h | h
    · exact absurd h (by decide)
    · exact absurd h (by decide)
  have hcomma : ',' ∉ (d :: t) ++ '-' :: (e1 :: es2) := by
    intro hm
    rcases hmem _ hm with h | h
    · exact absurd h (by decide)
    · exact absurd h (by decide)
  have hl0 : (e1 :: es2).getLast? = some ((e1 :: es2).getLast (List.cons_ne_nil e1 es2)) :=
    List.getLast?_eq_getLast _ _
  have hlast : ((d :: t) ++ '-' :: (e1 :: es2)).getLast?
      = some ((e1 :: es2).getLast (List.cons_ne_nil e1 es2)) := by
    rw [List.getLast?_append,
      show ('-' :: (e1 :: es2)) = ['-'] ++ (e1 :: es2) from rfl,
      List.getLast?_append, hl0, Option.or_some, Option.or_some]
  have hstrip : pyStrip ((d :: t) ++ '-' :: (e1 :: es2))
      = (d :: t) ++ '-' :: (e1 :: es2) := by
    refine pyStrip_eq_self_ends ?_ hlast
      (pyIsSpace_eq_false_of_isDigit (hall1 d (List.mem_cons_self d t)))
      (pyIsSpace_eq_false_of_isDigit (hall2 _ (List.getLast_mem _)))
    rw [List.cons_append, List.head?_cons]
  have hcont : ((d :: t) ++ '-' :: (e1 :: es2)).contains '-' = true :=
    List.elem_iff.mpr (by simp)
  simp only [parse_price]
  rw [if_neg (by rw [List.cons_append, List.isEmpty_cons]; exact Bool.false_ne_true)]
  rw [stripPeso_eq_self hpeso, stripPHP_eq_self hphp, stripComma_eq_self hcomma, hstrip]
  rw [if_pos hcont]
  rw [takeWhile_append_all (fun c hc => by
    have hne : c ≠ '-' := ne_of_isDigit (hall1 c hc) (by decide)
    simp [hne])]
  rw [show List.takeWhile (fun c => decide (c ≠ '-')) ('-' :: (e1 :: es2)) = [] from ?_]
  · rw [List.append_nil]
    rw [pyStrip_eq_self
      (fun c hc => pyIsSpace_eq_false_of_isDigit (hall1 c hc))]
    exact pyFloat_digits (List.cons_ne_nil d t) hall1
  · rw [List.takeWhile_cons, show (decide ('-' ≠ '-')) = false from rfl]
    simp

theorem parse_price_en_dash {ds es : List Char} (hd : ds ≠ [])
    (hall1 : ∀ c ∈ ds, c.isDigit = true) (hall2 : ∀ c ∈ es, c.isDigit = true) :
    parse_price (ds ++ '–' :: es) = none := by
  obtain ⟨d, t, rfl⟩ : ∃ d t, ds = d :: t := by
    cases ds with
    | nil => exact absurd rfl hd
    | cons d t => exact ⟨d, t, rfl⟩
  have hmem : ∀ c ∈ (d :: t) ++ '–' :: es, c.isDigit = true ∨ c = '–' := by
    intro c hc
    rcases List.mem_append.mp hc with h | h
    · exact Or.inl (hall1 c h)
    · rcases List.mem_cons.mp h with h | h
      · exact Or.inr h
      · exact Or.inl (hall2 c h)
  have hpeso : 'â' ∉ (d :: t) ++ '–' :: es := by
    intro hm
    rcases hmem _ hm with h | h
    · exact absurd h (by decide)
    · exact absurd h (by decide)
  have hphp : 'P' ∉ (d :: t) ++ '–' :: es := by
    intro hm
    rcases hmem _ hm with h | h
    · exact absurd h (by decide)
    · exact absurd h (by decide)
  have hcomma : ',' ∉ (d :: t) ++ '–' :: es := by
    intro hm
    rcases hmem _ hm with h | h
    · exact absurd h (by decide)
    · exact absurd h (by decide)
  have hcont : ¬ (((d :: t) ++ '–' :: es).contains '-' = true) := by
    intro hc
    rcases hmem _ (List.elem_iff.mp hc) with h | h
    · exact absurd h (by decide)
    · exact absurd h (by decide)
  simp only [parse_price]
  rw [if_neg (by rw [List.cons_append, List.isEmpty_cons]; exact Bool.false_ne_true)]
  rw [stripPeso_eq_self hpeso, stripPHP_eq_self hphp, stripComma_eq_self hcomma]
  rw [pyStrip_eq_self (fun c hc => ?_)]
  · rw [if_neg hcont]
    exact pyFloat_en_dash (List.cons_ne_nil d t) hall1 hall2
  · rcases hmem c hc with h | h
    · exact pyIsSpace_eq_false_of_isDigit h
    · subst h
      decide

theorem parse_price_php_comma {ds1 ds2 : List Char} (h1 : ds1 ≠ [])
    (hall1 : ∀ c ∈ ds1, c.isDigit = true) (hall2 : ∀ c ∈ ds2, c.isDigit = true) :
    parse_price ('P' :: 'H' :: 'P' :: (ds1 ++ ',' :: ds2))
      = some (digitsToNat (ds1 ++ ds2)) := by
  have hmem : ∀ c ∈ ds1 ++ ',' :: ds2, c.isDigit = true ∨ c = ',' := by
    intro c hc
    rcases List.mem_append.mp hc with h | h
    · exact Or.inl (hall1 c h)
    · rcases List.mem_cons.mp h with h | h
      · exact Or.inr h
      · exact Or.inl (hall2 c h)
  have hpeso : 'â' ∉ 'P' :: 'H' :: 'P' :: (ds1 ++ ',' :: ds2) := by
    intro hm
    rcases List.mem_cons.mp hm with h | h
    · exact absurd h (by decide)
    · rcases List.mem_cons.mp h with h | h
      · exact absurd h (by decide)
      · rcases List.mem_cons.mp h with h | h
        · exact absurd h (by decide)
        · rcases hmem _ h with h | h
          · exact absurd h (by decide)
          · exact absurd h (by decide)
  have hphp : 'P' ∉ ds1 ++ ',' :: ds2 := by
    intro hm
    rcases hmem _ hm with h | h
    · exact absurd h (by decide)
    · exact absurd h (by decide)
  have hcomma1 : ',' ∉ ds1 := notMem_of_digits (by decide) hall1
  have hcomma2 : ',' ∉ ds2 := notMem_of_digits (by decide) hall2
  have halld : ∀ c ∈ ds1 ++ ds2, c.isDigit = true := by
    intro c hc
    rcases List.mem_append.mp hc with h | h
    · exact hall1 c h
    · exact hall2 c h
  have hne : ds1 ++ ds2 ≠ [] := by
    cases ds1 with
    | nil => exact absurd rfl h1
    | cons d t => exact List.cons_ne_nil d (t ++ ds2)
  have hcont : ¬ ((ds1 ++ ds2).contains '-' = true) := by
    intro hc
    exact absurd (halld _ (List.elem_iff.mp hc)) (by decide)
  simp only [parse_price]
  rw [if_neg (by rw [List.isEmpty_cons]; exact Bool.false_ne_true)]
  rw [stripPeso_eq_self hpeso]
  rw [show stripPHP ('P' :: 'H' :: 'P' :: (ds1 ++ ',' :: ds2))
      = stripPHP (ds1 ++ ',' :: ds2) from rfl]
  rw [stripPHP_eq_self hphp]
  rw [stripComma_append hcomma1]
  rw [show stripComma (',' :: ds2) = stripComma ds2 from rfl]
  rw [stripComma_eq_self hcomma2]
  rw [pyStrip_eq_self (fun c hc => pyIsSpace_eq_false_of_isDigit (halld c hc))]
  rw [if_neg hcont]
  exact pyFloat_digits hne halld

/-! ## C8 -/

/-- C8 (amended).  `parse_price` strips the currency markers the source
names — the byte sequence `"â‚±"` (mojibake for the peso sign), the marker
`"PHP"` and the thousands-separator commas — and trims whitespace; a range
joined by an ASCII hyphen, `"X-Y"` or `"X - Y"`, yields the lower bound
`X`; but a range joined by the en dash `"X–Y"` is not recognised — it
fails numeric parsing — and any text that still fails numeric parsing
yields no price (the embedding is total: `none`, never an exception). -/
theorem parse_price_spec :
    (∀ ds es : List Char, ds ≠ [] → es ≠ [] →
      (∀ c ∈ ds, c.isDigit = true) → (∀ c ∈ es, c.isDigit = true) →
      parse_price (ds ++ ' ' :: '-' :: ' ' :: es) = some (digitsToNat ds)
        ∧ parse_price (ds ++ '-' :: es) = some (digitsToNat ds)
        ∧ parse_price (ds ++ '–' :: es) = none)
    ∧ (∀ ds1 ds2 : List Char, ds1 ≠ [] →
      (∀ c ∈ ds1, c.isDigit = true) → (∀ c ∈ ds2, c.isDigit = true) →
      parse_price ('P' :: 'H' :: 'P' :: (ds1 ++ ',' :: ds2))
        = some (digitsToNat (ds1 ++ ds2))) := by
  constructor
  · intro ds es hd he hall1 hall2
    exact ⟨parse_price_range_spaced hd he hall1 hall2,
      parse_price_range_bare hd he hall1 hall2,
      parse_price_en_dash hd hall1 hall2⟩
  · intro ds1 ds2 h1 hall1 hall2
    exact parse_price_php_comma h1 hall1 hall2

/-- C8, counterexample to the claim as stated: the spec writes the range
shape with an en dash, `"X–Y"`, but `parse_price` splits only on the ASCII
hyphen, so `"100–200"` — which is exactly `"100" ++ '–' ++ "200"` — parses
to no price at all instead of the lower bound `100`. -/
theorem parse_price_en_dash_range_fails :
    parse_price "100–200".toList = none
      ∧ "100–200".toList = "100".toList ++ '–' :: "200".toList := by
  constructor
  · decide
  · decide

/-- Witness for `parse_price_spec` at a concrete range input. -/
theorem parse_price_spec_witness :
    parse_price ("100".toList ++ ' ' :: '-' :: ' ' :: "200".toList)
      = some (digitsToNat "100".toList) :=
  (parse_price_spec.1 "100".toList "200".toList (by decide) (by decide)
    (by decide) (by decide)).1

/-! ## C5, C6 — pagination driver bounds and error stop -/

/-- C5.  With `maxPages = m > 0`, a crawl started at page 1 performs at most
`m` page extractions, whatever the extractor reports; and from any start
page the loop stops once the current page number reaches `m`: every
extracted page number is at most `max startPage m`. -/
theorem scrape_all_pages_max_pages_bound (oracle : Nat → SearchPageResult)
    {m : Nat} (hm : 0 < m) (fuel : Nat) :
    (scrape_all_pages oracle m 1 fuel).extracted_pages.length ≤ m
    ∧ ∀ s, ∀ q ∈ (scrape_all_pages oracle m s fuel).extracted_pages, q ≤ max s m := by
  constructor
  · have h := loop_extracted_length oracle hm fuel 1 {}
    have h2 : (({} : CrawlState).extracted_pages).length = 0 := rfl
    have h3 : max 1 (m + 1 - 1) = m := by omega
    rw [h2, h3] at h
    rw [show scrape_all_pages oracle m 1 fuel
      = scrape_all_pages_loop oracle m fuel 1 {} from rfl]
    omega
  · intro s q hq
    rcases loop_extracted_mem oracle hm fuel s {} q hq with h | h
    · exact absurd h (List.not_mem_nil q)
    · exact h.2

/-- Witness for `scrape_all_pages_max_pages_bound`: three pages for
`maxPages = 3` even though the extractor always reports a next page. -/
theorem scrape_all_pages_max_pages_bound_witness :
    (scrape_all_pages nextOracle 3 1 10).extracted_pages.length ≤ 3 :=
  (scrape_all_pages_max_pages_bound nextOracle (by decide) 10).1

/-- C6.  When the extraction of the current page reports an error, the
driver performs that one extraction and no further ones, leaves the
gathered item list exactly as it was, and returns; in particular a run
whose first page errors returns the empty item list after a single
extraction. -/
theorem scrape_all_pages_stops_on_error (oracle : Nat → SearchPageResult)
    (m fuel s : Nat) (st : CrawlState)
    (h : ((oracle s).error).isSome = true) :
    scrape_all_pages_loop oracle m (fuel + 1) s st
        = { st with extracted_pages := st.extracted_pages ++ [s] }
    ∧ (scrape_all_pages oracle m s (fuel + 1)).all_results = []
    ∧ (scrape_all_pages oracle m s (fuel + 1)).extracted_pages = [s] := by
  obtain ⟨msg, hmsg⟩ := Option.isSome_iff_exists.mp h
  refine ⟨loop_succ_error hmsg, ?_, ?_⟩
  · rw [scrape_all_pages, loop_succ_error hmsg]
  · rw [scrape_all_pages, loop_succ_error hmsg]
    rfl

/-- Witness for `scrape_all_pages_stops_on_error` on a concrete erroring
extractor, started at page 6. -/
theorem scrape_all_pages_stops_on_error_witness :
    (scrape_all_pages errOracle 10 6 3).extracted_pages = [6] :=
  (scrape_all_pages_stops_on_error errOracle 10 2 6 {} (by decide)).2.2

/-! ## C4 — the `lastPageScraped` checkpoint -/

/-- C4, counterexample to the claim as stated: configuration `cfg4` was
checkpointed at page 5 and is running; its resumed crawl starts at page 6,
whose extraction errors.  The task then stores `lastPageScraped = 0` —
strictly below the value 5 held at trigger time — and `status =
"completed"`. -/
theorem resumed_crawl_error_resets_checkpoint :
    ((scrape_search_config_async cfgD errOracle 3 db4 9 50).2.2.configs.map
      (fun c => (c.last_page_scraped, c.status))) = [(0, "completed")]
    ∧ cfg4.last_page_scraped = 5 ∧ cfg4.status = "running" := by
  refine ⟨by decide, rfl, rfl⟩

/-- C4 (amended).  While a crawl runs, the stored `lastPageScraped` never
decreases to a smaller *positive* value: the task's success-path update
writes either `0` (when the run completed no page, e.g. a resumed crawl
whose first extraction errors) or a value strictly greater than the
checkpoint held at trigger time; and the unhandled-exception path leaves
the checkpoint untouched. -/
theorem last_page_scraped_near_monotone
    (config : SearchConfigData) (oracle : Nat → SearchPageResult) (fuel : Nat)
    (db : DB) (now today : Nat) (c0 : SearchConfig)
    (h0 : db.configs.find? (fun c => c.id == config.id) = some c0) :
    (∃ c1,
      ((scrape_search_config_async config oracle fuel db now today).2.2.configs.find?
        (fun c => c.id == config.id)) = some c1
      ∧ (c1.last_page_scraped = 0 ∨ config.last_page_scraped < c1.last_page_scraped))
    ∧ ∀ msg, ∃ c2,
      ((scrape_search_config_error_update db config.id msg).configs.find?
        (fun c => c.id == config.id)) = some c2
      ∧ c2.last_page_scraped = c0.last_page_scraped := by
  have hpred := List.find?_some h0
  constructor
  · simp only [scrape_search_config_async]
    rw [foldl_saveStepFn_configs]
    refine ⟨_, find?_updateFirst h0 hpred, ?_⟩
    show (scrape_all_pages oracle config.max_pages
        (if config.last_page_scraped > 0 then config.last_page_scraped + 1 else 1)
        fuel).pages_scraped = 0
      ∨ config.last_page_scraped <
        (scrape_all_pages oracle config.max_pages
          (if config.last_page_scraped > 0 then config.last_page_scraped + 1 else 1)
          fuel).pages_scraped
    rw [show scrape_all_pages oracle config.max_pages
        (if config.last_page_scraped > 0 then config.last_page_scraped + 1 else 1) fuel
      = scrape_all_pages_loop oracle config.max_pages fuel
        (if config.last_page_scraped > 0 then config.last_page_scraped + 1 else 1) {}
      from rfl]
    rcases loop_pages_scraped oracle config.max_pages fuel
        (if config.last_page_scraped > 0 then config.last_page_scraped + 1 else 1)
        {} with h | h
    · exact Or.inl h
    · refine Or.inr ?_
      by_cases hlps : config.last_page_scraped > 0
      · rw [if_pos hlps] at h ⊢
        omega
      · rw [if_neg hlps] at h ⊢
        omega
  · intro msg
    unfold scrape_search_config_error_update
    exact ⟨_, find?_updateFirst h0 hpred, rfl⟩

/-- Witness for `last_page_scraped_near_monotone` on the concrete resumed
configuration. -/
theorem last_page_scraped_near_monotone_witness :
    (∃ c1,
      ((scrape_search_config_async cfgD errOracle 3 db4 9 50).2.2.configs.find?
        (fun c => c.id == cfgD.id)) = some c1
      ∧ (c1.last_page_scraped = 0 ∨ cfgD.last_page_scraped < c1.last_page_scraped))
    ∧ ∀ msg, ∃ c2,
      ((scrape_search_config_error_update db4 cfgD.id msg).configs.find?
        (fun c => c.id == cfgD.id)) = some c2
      ∧ c2.last_page_scraped = cfg4.last_page_scraped :=
  last_page_scraped_near_monotone cfgD errOracle 3 db4 9 50 cfg4 rfl

/-! ## C3 — the ingestion guard -/

/-- C3, counterexample to the claim as stated: the guard is Python
truthiness (`not result.price`), so an item with a *negative* price is not
skipped — it is persisted, creating a Product row and a Price History
row. -/
theorem save_search_result_accepts_negative_price :
    negItem.price < 0
    ∧ (save_search_result negItem 0 "gpu" {} 3 7).1 = some 0
    ∧ (save_search_result negItem 0 "gpu" {} 3 7).2.products.length = 1
    ∧ (save_search_result negItem 0 "gpu" {} 3 7).2.history.length = 1 := by
  refine ⟨?_, by decide, by decide, by decide⟩
  show (-5 : ℚ) < 0
  norm_num

/-- C3 (amended).  `save_search_result` persists an item iff its title is
non-empty, its price is *nonzero* (zero is rejected, but a negative price
passes), and its product URL is non-empty; an item failing this check is
skipped with no effect at all on the database. -/
theorem save_search_result_guard_spec (r : SearchResult) (sid : Nat)
    (cat : String) (db : DB) (now today : Nat) :
    ((r.title = "" ∨ r.price = 0 ∨ r.product_url = "") →
      save_search_result r sid cat db now today = (none, db))
    ∧ (r.title ≠ "" → r.price ≠ 0 → r.product_url ≠ "" →
      ∃ pid, (save_search_result r sid cat db now today).1 = some pid) := by
  constructor
  · exact save_search_result_skip r sid cat db now today
  · intro h1 h2 h3
    refine save_search_result_saves r sid cat db now today ?_
    rintro (h | h | h)
    · exact h1 h
    · exact h2 h
    · exact h3 h

/-- Witness for `save_search_result_guard_spec`: a valid item is saved,
and an empty-priced item is skipped leaving the database unchanged. -/
theorem save_search_result_guard_spec_witness :
    (∃ pid, (save_search_result okItem 0 "gpu" {} 3 7).1 = some pid)
    ∧ save_search_result { okItem with price := 0 } 0 "gpu" {} 3 7
        = (none, ({} : DB)) :=
  ⟨(save_search_result_guard_spec okItem 0 "gpu" {} 3 7).2
      (by decide) (by decide) (by decide),
    (save_search_result_guard_spec { okItem with price := 0 } 0 "gpu" {} 3 7).1
      (Or.inr (Or.inl rfl))⟩

/-! ## C9 — the upsert frame -/

/-- C9.  When the item's URL matches an existing Product, the update
overwrites exactly the name, current price, image, active flag, the
`updated_at`/`last_scraped`/`scrape_date` timestamps, the currency and the
recomputed price change — the store reference, category, brand, URL key,
row id and creation timestamp are untouched; when no Product matches, a
new one is created with `price_change = 0`. -/
theorem save_search_result_frame (r : SearchResult) (sid : Nat) (cat : String)
    (db : DB) (now today : Nat)
    (hg : ¬ (r.title = "" ∨ r.price = 0 ∨ r.product_url = "")) :
    (∀ p, findProductByUrl db r.product_url = some p →
      ∃ p', findProductByUrl (save_search_result r sid cat db now today).2
          r.product_url = some p'
        ∧ p'.id = p.id ∧ p'.store_id = p.store_id ∧ p'.category = p.category
        ∧ p'.brand = p.brand ∧ p'.url = p.url ∧ p'.created_at = p.created_at
        ∧ p'.name = r.title ∧ p'.current_price = r.price ∧ p'.image = r.image_url
        ∧ p'.is_active = true ∧ p'.currency = "PHP" ∧ p'.updated_at = now
        ∧ p'.last_scraped = some now ∧ p'.scrape_date = some today
        ∧ p'.price_change = calculate_price_change r.price p.id today db.history)
    ∧ (findProductByUrl db r.product_url = none →
      ∃ p', findProductByUrl (save_search_result r sid cat db now today).2
          r.product_url = some p'
        ∧ p'.id = db.next_id ∧ p'.price_change = 0 ∧ p'.name = r.title
        ∧ p'.current_price = r.price ∧ p'.url = r.product_url
        ∧ p'.store_id = sid ∧ p'.category = cat ∧ p'.brand = none) := by
  constructor
  · intro p hfp
    have hfp2 : db.products.find? (fun pr => pr.url == r.product_url) = some p := hfp
    have hpurl := List.find?_some hfp2
    unfold save_search_result
    rw [if_neg hg]
    simp only [hfp]
    cases hh : db.history.find?
        (fun e => e.product_id == p.id && e.recorded_date == today) with
    | none =>
      simp only [hh]
      exact ⟨_, find?_updateFirst hfp2 hpurl, rfl, rfl, rfl, rfl, rfl, rfl, rfl,
        rfl, rfl, rfl, rfl, rfl, rfl, rfl, rfl⟩
    | some old =>
      simp only [hh]
      exact ⟨_, find?_updateFirst hfp2 hpurl, rfl, rfl, rfl, rfl, rfl, rfl, rfl,
        rfl, rfl, rfl, rfl, rfl, rfl, rfl, rfl⟩
  · intro hfp
    have hfp2 : db.products.find? (fun pr => pr.url == r.product_url) = none := hfp
    unfold save_search_result
    rw [if_neg hg]
    simp only [hfp]
    cases hh : db.history.find?
        (fun e => e.product_id == db.next_id && e.recorded_date == today) with
    | none =>
      simp only [hh]
      exact ⟨_, find?_append_singleton hfp2 (by simp), rfl, rfl, rfl, rfl, rfl,
        rfl, rfl, rfl⟩
    | some old =>
      simp only [hh]
      exact ⟨_, find?_append_singleton hfp2 (by simp), rfl, rfl, rfl, rfl, rfl,
        rfl, rfl, rfl⟩

/-- Witness for `save_search_result_frame`: creating a fresh product in the
empty database yields `price_change = 0`. -/
theorem save_search_result_frame_witness :
    ∃ p', findProductByUrl (save_search_result okItem 0 "gpu" {} 3 7).2
        okItem.product_url = some p'
      ∧ p'.id = ({} : DB).next_id ∧ p'.price_change = 0 ∧ p'.name = okItem.title
      ∧ p'.current_price = okItem.price ∧ p'.url = okItem.product_url
      ∧ p'.store_id = 0 ∧ p'.category = "gpu" ∧ p'.brand = none :=
  (save_search_result_frame okItem 0 "gpu" {} 3 7 (by decide)).2 rfl

/-! ## C1 — Price History uniqueness -/

theorem save_search_result_overwrite_length (r : SearchResult) (sid : Nat)
    (cat : String) (db : DB) (now today : Nat) (p : Product)
    (hg : ¬ (r.title = "" ∨ r.price = 0 ∨ r.product_url = ""))
    (hfp : findProductByUrl db r.product_url = some p)
    (hh : db.history.find?
      (fun e => e.product_id == p.id && e.recorded_date == today) ≠ none) :
    (save_search_result r sid cat db now today).2.history.length
      = db.history.length := by
  unfold save_search_result
  rw [if_neg hg]
  simp only [hfp]
  cases hh2 : db.history.find?
      (fun e => e.product_id == p.id && e.recorded_date == today) with
  | none => exact absurd hh2 hh
  | some old =>
    simp only [hh2]
    exact length_updateFirst _ _ _

/-- C1 (amended, search-crawl path).  `save_search_result` preserves the
at-most-one-entry-per-`(productId, recordedDate)` invariant, and
re-ingesting the same item on the same date leaves the number of Price
History rows unchanged — the existing row is overwritten in place.  (The
single-URL path violates the claim; see the counterexample.) -/
theorem save_search_result_same_day_upsert (r : SearchResult) (sid : Nat)
    (cat : String) (db : DB) (now today now2 : Nat) :
    (uniqueHistory db.history →
      uniqueHistory (save_search_result r sid cat db now today).2.history)
    ∧ (save_search_result r sid cat
          (save_search_result r sid cat db now today).2 now2 today).2.history.length
        = (save_search_result r sid cat db now today).2.history.length := by
  by_cases hg : r.title = "" ∨ r.price = 0 ∨ r.product_url = ""
  · rw [save_search_result_skip r sid cat db now today hg]
    rw [save_search_result_skip r sid cat db now2 today hg]
    exact ⟨id, rfl⟩
  · constructor
    · intro hu
      unfold save_search_result
      rw [if_neg hg]
      cases hfp : findProductByUrl db r.product_url with
      | some p =>
        simp only [hfp]
        cases hh : db.history.find?
            (fun e => e.product_id == p.id && e.recorded_date == today) with
        | none =>
          simp only [hh]
          refine uniqueHistory_append hu ?_
          intro a ha hkey
          refine List.find?_eq_none.mp hh a ha ?_
          rw [histKey, histKey, Prod.mk.injEq] at hkey
          simp [hkey.1, hkey.2]
        | some old =>
          simp only [hh]
          refine uniqueHistory_updateFirst ?_ hu
          intro a
          rfl
      | none =>
        simp only [hfp]
        cases hh : db.history.find?
            (fun e => e.product_id == db.next_id && e.recorded_date == today) with
        | none =>
          simp only [hh]
          refine uniqueHistory_append hu ?_
          intro a ha hkey
          refine List.find?_eq_none.mp hh a ha ?_
          rw [histKey, histKey, Prod.mk.injEq] at hkey
          simp [hkey.1, hkey.2]
        | some old =>
          simp only [hh]
          refine uniqueHistory_updateFirst ?_ hu
          intro a
          rfl
    · obtain ⟨p', h1, h2, h3⟩ := save_search_result_spec r sid cat db now today hg
      exact save_search_result_overwrite_length r sid cat _ now2 today p' hg h2 h3

/-- Witness for `save_search_result_same_day_upsert` on the empty database. -/
theorem save_search_result_same_day_upsert_witness :
    uniqueHistory (save_search_result okItem 0 "gpu" {} 3 7).2.history :=
  (save_search_result_same_day_upsert okItem 0 "gpu" {} 3 7 4).1
    (List.Pairwise.nil)

/-- C1, counterexample to the claim as stated for the single-URL path: two
successful `scrape_single_url` runs for the same source on the same day
produce two Price History rows with the same `(productId, recordedDate)`
pair — the task appends unconditionally and the table has no uniqueness
constraint. -/
theorem scrape_single_url_duplicates_history_rows :
    ((scrape_single_url (scrape_single_url db0 1 okRes 10 50).2 1 okRes 11 50).2.history.map
      (fun e => (e.product_id, e.recorded_date))) = [(2, 50), (2, 50)]
    ∧ ¬ uniqueHistory
        ((scrape_single_url (scrape_single_url db0 1 okRes 10 50).2 1 okRes 11 50).2.history) := by
  constructor
  · decide
  · intro hu
    rw [uniqueHistory] at hu
    have h2 : ((scrape_single_url (scrape_single_url db0 1 okRes 10 50).2
        1 okRes 11 50).2.history.map (fun e => (e.product_id, e.recorded_date)))
        = [(2, 50), (2, 50)] := by decide
    rcases hmap : (scrape_single_url (scrape_single_url db0 1 okRes 10 50).2
        1 okRes 11 50).2.history with _ | ⟨a, _ | ⟨b, l⟩⟩
    · rw [hmap] at h2
      exact absurd h2 (by decide)
    · rw [hmap] at h2
      exact absurd h2 (by simp)
    · rw [hmap] at h2
      rw [hmap, List.pairwise_cons] at hu
      have hab := hu.1 b (List.mem_cons_self b l)
      simp only [List.map_cons, List.cons.injEq, Prod.mk.injEq] at h2
      obtain ⟨⟨ha1, ha2⟩, ⟨hb1, hb2⟩, -⟩ := h2
      apply hab
      rw [histKey, histKey, ha1, ha2, hb1, hb2]

/-! ## C2 — the price-change computation -/

/-- C2.  The price-change percent is `0` when no strictly-earlier-day entry
exists for the product; when the most recent such entry is unique, the
result is `0` if its price is `0` and otherwise
`round(((current − previous) / previous) × 100, 2)`; in particular a
previous price of 100 followed by 80 yields `-20`. -/
theorem calculate_price_change_spec :
    (∀ (cur : ℚ) (pid today : Nat) (hist : List PriceHistory),
      (∀ e ∈ hist, e.product_id = pid → ¬ e.recorded_date < today) →
      calculate_price_change cur pid today hist = 0)
    ∧ (∀ (cur : ℚ) (pid today : Nat) (hist : List PriceHistory) (e : PriceHistory),
      e ∈ hist → e.product_id = pid → e.recorded_date < today →
      (∀ x ∈ hist, x.product_id = pid → x.recorded_date < today →
        x.recorded_date ≤ e.recorded_date) →
      (∀ x ∈ hist, x.product_id = pid → x.recorded_date = e.recorded_date →
        x = e) →
      calculate_price_change cur pid today hist
        = (if e.price = 0 then 0
           else round2 (((cur - e.price) / e.price) * 100)))
    ∧ calculate_price_change 80 7 1 [entry100] = -20 := by
  refine ⟨?_, ?_, ?_⟩
  · intro cur pid today hist h
    unfold calculate_price_change
    rw [latestBefore_eq_none h]
  · intro cur pid today hist e he hpid hlt hmax huniq
    unfold calculate_price_change
    rw [latestBefore_eq_some he hpid hlt hmax huniq]
  · unfold calculate_price_change
    rw [show latestBefore 7 1 [entry100] = some entry100 from
      latestBefore_eq_some (List.mem_singleton.mpr rfl) rfl (by decide)
        (by intro x hx h1 h2; rw [List.mem_singleton.mp hx])
        (by intro x hx h1 h2; exact List.mem_singleton.mp hx)]
    show (if entry100.price = 0 then (0 : ℚ)
      else round2 ((80 - entry100.price) / entry100.price * 100)) = -20
    rw [if_neg (by norm_num [entry100])]
    rw [show ((80 : ℚ) - entry100.price) / entry100.price * 100 = -20 from by
      norm_num [entry100]]
    unfold round2 roundHalfEven
    norm_num

/-- Witness for `calculate_price_change_spec`: the unique-previous-entry
branch applied to a concrete one-entry history. -/
theorem calculate_price_change_spec_witness :
    calculate_price_change 80 7 1 [entry100]
      = (if entry100.price = 0 then 0
         else round2 (((80 - entry100.price) / entry100.price) * 100)) :=
  calculate_price_change_spec.2.1 80 7 1 [entry100] entry100
    (List.mem_singleton.mpr rfl) rfl (by decide)
    (by intro x hx h1 h2; rw [List.mem_singleton.mp hx])
    (by intro x hx h1 h2; exact List.mem_singleton.mp hx)

/-! ## C7 — the single-URL circuit breaker -/

/-- C7.  A failed scrape increments `errorCount` by exactly one and stores
the error in `lastError`, forcing `isActive = false` exactly when the new
count reaches 5; a successful scrape resets `errorCount` to 0, clears
`lastError`, stamps `lastScraped`, and leaves `isActive` untouched. -/
theorem scrape_single_url_circuit_breaker (db : DB) (id0 : Nat)
    (result : ScrapedData) (now today : Nat) (su : ScrapeURL)
    (hfind : db.scrape_urls.find? (fun x => x.id == id0) = some su)
    (hstore : (db.stores.find? (fun st => st.id == su.store_id)).isSome = true) :
    (∀ msg, result.error = some msg →
      ∃ su', ((scrape_single_url db id0 result now today).2.scrape_urls.find?
          (fun x => x.id == id0)) = some su'
        ∧ su'.error_count = su.error_count + 1
        ∧ su'.last_error = some msg
        ∧ su'.is_active = (if su.error_count + 1 ≥ 5 then false else su.is_active)
        ∧ (scrape_single_url db id0 result now today).1 = .errorResult msg)
    ∧ (∀ nm pr, result.error = none → result.name = some nm →
      result.price = some pr →
      ∃ su', ((scrape_single_url db id0 result now today).2.scrape_urls.find?
          (fun x => x.id == id0)) = some su'
        ∧ su'.error_count = 0
        ∧ su'.last_error = none
        ∧ su'.last_scraped = some now
        ∧ su'.is_active = su.is_active) := by
  obtain ⟨st0, hst0⟩ := Option.isSome_iff_exists.mp hstore
  have hpred := List.find?_some hfind
  constructor
  · intro msg hmsg
    unfold scrape_single_url
    simp only [hfind, hst0, hmsg]
    by_cases hcnt : su.error_count + 1 ≥ 5
    · rw [if_pos hcnt]
      refine ⟨_, find?_updateFirst hfind hpred, ?_, ?_, ?_, ?_⟩ <;>
        first
          | rfl
          | (rw [if_pos hcnt])
          | trivial
    · rw [if_neg hcnt]
      refine ⟨_, find?_updateFirst hfind hpred, ?_, ?_, ?_, ?_⟩ <;>
        first
          | rfl
          | (rw [if_neg hcnt])
          | trivial
  · intro nm pr herr hnm hpr
    unfold scrape_single_url
    simp only [hfind, hst0, herr, hnm, hpr]
    cases hfp : findProductByUrl db su.url <;> simp only [hfp] <;>
      (refine ⟨_, find?_updateFirst hfind hpred, ?_, ?_, ?_, ?_⟩ <;>
        first
          | rfl
          | trivial)

/-- Witness for `scrape_single_url_circuit_breaker`: a failure on a fresh
source takes its `errorCount` to 1 without deactivating it. -/
theorem scrape_single_url_circuit_breaker_witness :
    ∃ su', ((scrape_single_url db0 1 errRes 10 50).2.scrape_urls.find?
        (fun x => x.id == 1)) = some su'
      ∧ su'.error_count = su0.error_count + 1
      ∧ su'.last_error = some "Failed to fetch page"
      ∧ su'.is_active = (if su0.error_count + 1 ≥ 5 then false else su0.is_active)
      ∧ (scrape_single_url db0 1 errRes 10 50).1
          = .errorResult "Failed to fetch page" :=
  (scrape_single_url_circuit_breaker db0 1 errRes 10 50 su0 rfl rfl).1
    "Failed to fetch page" rfl

/-! ## C10 — the isActive filter lives only in the batch task -/

/-- C10.  `scrape_single_url` never consults the source's `isActive` flag:
a direct invocation on a quarantined source still performs the scrape and,
on success, resets `errorCount` to 0 while leaving `isActive` false; the
filter on `isActive` is applied only by `scrape_all_products`, which
enqueues exactly the active sources. -/
theorem scrape_single_url_ignores_is_active :
    (∀ (db : DB) (id0 : Nat) (result : ScrapedData) (now today : Nat)
      (su : ScrapeURL) (nm : String) (pr : ℚ),
      db.scrape_urls.find? (fun x => x.id == id0) = some su →
      (db.stores.find? (fun st => st.id == su.store_id)).isSome = true →
      su.is_active = false →
      result.error = none → result.name = some nm → result.price = some pr →
      ∃ pid su',
        (scrape_single_url db id0 result now today).1 = .success pid
        ∧ ((scrape_single_url db id0 result now today).2.scrape_urls.find?
            (fun x => x.id == id0)) = some su'
        ∧ su'.error_count = 0 ∧ su'.is_active = false)
    ∧ ∀ (db : DB) (i : Nat),
      i ∈ scrape_all_products db
        ↔ ∃ su ∈ db.scrape_urls, su.id = i ∧ su.is_active = true := by
  constructor
  · intro db id0 result now today su nm pr hfind hstore hina herr hnm hpr
    obtain ⟨st0, hst0⟩ := Option.isSome_iff_exists.mp hstore
    have hpred := List.find?_some hfind
    unfold scrape_single_url
    simp only [hfind, hst0, herr, hnm, hpr]
    cases hfp : findProductByUrl db su.url <;> simp only [hfp] <;>
      exact ⟨_, _, rfl, find?_updateFirst hfind hpred, rfl, hina⟩
  · intro db i
    unfold scrape_all_products
    constructor
    · intro hm
      obtain ⟨su, hsu, hid⟩ := List.mem_map.mp hm
      obtain ⟨hmem, hact⟩ := List.mem_filter.mp hsu
      exact ⟨su, hmem, hid, hact⟩
    · rintro ⟨su, hmem, hid, hact⟩
      exact List.mem_map.mpr ⟨su, List.mem_filter.mpr ⟨hmem, hact⟩, hid⟩

/-- Witness for `scrape_single_url_ignores_is_active`: a direct run on the
quarantined source `su0q` succeeds and resets its error count. -/
theorem scrape_single_url_ignores_is_active_witness :
    ∃ pid su',
      (scrape_single_url db0q 1 okRes 10 50).1 = .success pid
      ∧ ((scrape_single_url db0q 1 okRes 10 50).2.scrape_urls.find?
          (fun x => x.id == 1)) = some su'
      ∧ su'.error_count = 0 ∧ su'.is_active = false :=
  scrape_single_url_ignores_is_active.1 db0q 1 okRes 10 50 su0q "GPU" 100
    rfl rfl rfl rfl rfl rfl

end PCPC
